import Mathlib

/-!
Verification development for the bucketbase object-storage library.

The definitions below are a shallow embedding of the Python source
(`bucketbase/ibucket.py`, `bucketbase/fs_bucket.py`, `bucketbase/memory_bucket.py`,
`bucketbase/cached_immutable_bucket.py`, `bucketbase/errors.py`):

* bytes are lists of naturals;
* object names are `String`s, validated against the `OBJ_NAME_RE` regex
  (`^(?:[\w!\-\.')(]+/)*[\w!\-\.')(]+$`), modelled by splitting on the `/`
  separator (ASCII word characters are modelled; the Unicode extension of
  Python's `\w` and the tolerance of Python's `$` anchor for one trailing
  newline are orthogonal to every property proved here and not modelled);
* the filesystem under an `FSBucket` root is a finite map (association list)
  from relative paths (lists of path segments) to file contents; a directory
  exists at a path exactly when some stored file lies strictly below it
  (`FSBucket` creates directories only with `mkdir(parents=True)` on put and
  removes emptied ones after deletes, so directories are implied by files);
* a binary stream is the list of chunks its successive `read(BUFFER_SIZE)`
  calls yield, plus a flag telling whether the read after the last chunk
  raises an `OSError` instead of signalling end-of-file;
* Python exceptions are an explicit error type: operations that mutate state
  return the final state together with an optional propagated exception
  (side effects performed before an exception are kept, as in Python).
-/

namespace Bucketbase

/-- Python `bytes` values. -/
abbrev Bytes := List Nat

/-- One path segment (a filename component). -/
abbrev Seg := List Char

/-- A relative path under the store root, as a list of segments. -/
abbrev RelPath := List Seg

/-- The Python exception classes that the embedded code can raise. -/
inductive PyError
  /-- `ValueError`, raised by `_validate_name` / `_split_prefix`. -/
  | valueError
  /-- `FileNotFoundError` (the library's NotFound). -/
  | fileNotFound
  /-- `io.UnsupportedOperation`. -/
  | unsupportedOperation
  /-- `TypeError` (e.g. a call with an unexpected keyword argument). -/
  | typeError
  /-- `FileExistsError` / `NotADirectoryError` from `mkdir(parents=True)`
      when a regular file occupies an ancestor of the target path. -/
  | fileExists
  /-- `IsADirectoryError`: the target path is a directory. -/
  | isADirectory
  /-- `NotADirectoryError` from `unlink` when an ancestor is a regular file. -/
  | notADirectory
  /-- a generic `OSError` raised by a stream read mid-copy. -/
  | osError
deriving DecidableEq, Repr

/-- The characters of the character class `S3_NAME_CHARS_NO_SEP = r"\w!\-\.')("`
    from `ibucket.py` (`\w` modelled as ASCII word characters; codes 39, 40, 41
    are the apostrophe and the two parentheses). -/
def isS3NameChar (c : Char) : Bool :=
  c.isAlphanum || c = '_' || c = '!' || c = '-' || c = '.' ||
  c.toNat = 39 || c.toNat = 40 || c.toNat = 41

/-- Split a character list at every `/`, keeping empty pieces: the segment view
    of a slash-delimited string (what the `OBJ_NAME_RE` grammar quantifies over). -/
def splitSegs : List Char → List Seg
  | [] => [[]]
  | c :: cs =>
    if c = '/' then [] :: splitSegs cs
    else
      match splitSegs cs with
      | [] => [[c]]
      | s :: rest => (c :: s) :: rest

/-- `IBucket.OBJ_NAME_RE`: `^(?:[S3]+/)*[S3]+$` — one or more nonempty
    segments of allowed characters separated by `/`. A string matches the
    regex iff every piece of its `/`-split is nonempty and made of allowed
    characters (in particular the whole string is nonempty, does not start or
    end with `/` and has no `//`). -/
def matchesObjName (s : String) : Bool :=
  (splitSegs s.data).all fun seg => !seg.isEmpty && seg.all isS3NameChar

/-- `IBucket._validate_name`: raises `ValueError` unless the name matches
    `OBJ_NAME_RE`; returns the name unchanged otherwise. -/
def validateName (name : String) : Except PyError String :=
  if matchesObjName name then .ok name else .error .valueError

/-- `pathlib` parsing of `root / name`: the relative path consists of the
    `/`-separated components with spurious slashes and single-dot components
    collapsed (`PurePosixPath("a/./b").parts == ('a', 'b')`); `..` components
    are kept. -/
def purePathParts (s : String) : RelPath :=
  (splitSegs s.data).filter fun seg => !seg.isEmpty && decide (seg ≠ ['.'])

instance {ε α : Type} [DecidableEq ε] [DecidableEq α] : DecidableEq (Except ε α)
  | .ok a, .ok b => if h : a = b then .isTrue (by rw [h]) else .isFalse (by simp [h])
  | .ok _, .error _ => .isFalse (by simp)
  | .error _, .ok _ => .isFalse (by simp)
  | .error a, .error b => if h : a = b then .isTrue (by rw [h]) else .isFalse (by simp [h])

/-- Lookup in an association-list finite map (first match wins). -/
def alookup {κ β : Type} [DecidableEq κ] : List (κ × β) → κ → Option β
  | [], _ => none
  | q :: rest, k => if q.1 = k then some q.2 else alookup rest k

/-- Remove every binding of a key from an association-list finite map. -/
def aerase {κ β : Type} [DecidableEq κ] : List (κ × β) → κ → List (κ × β)
  | [], _ => []
  | q :: rest, k => if q.1 = k then aerase rest k else q :: aerase rest k

/-- Bind a key in an association-list finite map, replacing any prior binding. -/
def ainsert {κ β : Type} [DecidableEq κ] (l : List (κ × β)) (k : κ) (v : β) :
    List (κ × β) :=
  (k, v) :: aerase l k

/-- The regular files under an `FSBucket` root: a finite map from relative
    paths to contents. Directories are implied by the files below them. -/
abbrev FS := List (RelPath × Bytes)

/-- The contents of a `MemoryBucket` (`self._objects`), and also the abstract
    key/value contents of an arbitrary `IBucket` collaborator: a finite map
    from validated name strings to contents. -/
abbrev Store := List (String × Bytes)

/-- `p` is an initial segment of `q` (as filesystem paths: `p` is `q` or an
    ancestor directory of `q`). -/
def isPathLE : RelPath → RelPath → Bool
  | [], _ => true
  | _ :: _, [] => false
  | a :: ps, b :: qs => decide (a = b) && isPathLE ps qs

/-- A regular file of `fs` sits at a strict ancestor of the path `p`
    (so creating or unlinking `p` fails with `NotADirectoryError` /
    `FileExistsError` at the OS level). -/
def ancestorIsFile (fs : FS) (p : RelPath) : Bool :=
  fs.any fun q => isPathLE q.1 p && decide (q.1 ≠ p)

/-- A directory of `fs` exists at the path `p`: some regular file lies
    strictly below `p`. -/
def isDirIn (fs : FS) (p : RelPath) : Bool :=
  fs.any fun q => isPathLE p q.1 && decide (q.1 ≠ p)

/-- `FSBucket.BUFFER_SIZE = 64 * 1024`. -/
def BUFFER_SIZE : Nat := 64 * 1024

/-- A `BinaryIO` stream: successive `read(BUFFER_SIZE)` calls yield `chunks`
    in order; after the last chunk, the next read raises an `OSError` when
    `fails` is set and signals end-of-file (an empty chunk) otherwise. -/
structure ByteStream where
  chunks : List Bytes
  fails : Bool
deriving DecidableEq, Repr

/-- The copy loop of `FSBucket.put_object_stream`: each chunk read from the
    stream is appended to the already-open destination file at `p`. If the
    stream fails, the exception propagates and the destination keeps the
    chunks copied so far. -/
def copyChunks (fs : FS) (p : RelPath) : List Bytes → Bool → FS × Option PyError
  | [], false => (fs, none)
  | [], true => (fs, some .osError)
  | c :: cs, fl => copyChunks (ainsert fs p (((alookup fs p).getD []) ++ c)) p cs fl

/-- `FSBucket.put_object_stream(name, stream)`: validate the name, create the
    parent directories (`mkdir(parents=True, exist_ok=True)` — fails when a
    regular file occupies an ancestor of the destination), open the
    destination itself for writing (`open("wb")` — truncates it to empty, or
    fails when it is a directory), then copy the stream in `BUFFER_SIZE`
    chunks. The destination path is written directly: no scratch file and no
    rename are involved. -/
def fsPutObjectStream (fs : FS) (name : String) (stream : ByteStream) :
    FS × Option PyError :=
  match validateName name with
  | .error e => (fs, some e)
  | .ok n =>
    let p := purePathParts n
    if ancestorIsFile fs p then (fs, some .fileExists)
    else if isDirIn fs p then (fs, some .isADirectory)
    else copyChunks (ainsert fs p []) p stream.chunks stream.fails

/-- Fuelled worker for `chunksOf` (the fuel only makes the recursion
    structural; it is always called with at least `b.length` fuel, which the
    recursion never exhausts for a positive chunk size). -/
def chunksOfFuel (n : Nat) : Nat → Bytes → List Bytes
  | _, [] => []
  | 0, _ => []
  | fuel + 1, b => b.take n :: chunksOfFuel n fuel (b.drop n)

/-- `BytesIO(content).read(BUFFER_SIZE)` chunking: split `b` into pieces of
    `n` bytes (the last piece may be shorter). -/
def chunksOf (n : Nat) (b : Bytes) : List Bytes :=
  chunksOfFuel n b.length b

/-- `FSBucket.put_object(name, content)`: wrap the bytes in a `BytesIO` and
    delegate to `put_object_stream`. -/
def fsPutObject (fs : FS) (name : String) (content : Bytes) : FS × Option PyError :=
  fsPutObjectStream fs name ⟨chunksOf BUFFER_SIZE content, false⟩

/-- `FSBucket.get_object(name)`: validate, then `Path.read_bytes` — the file's
    contents when a regular file sits at the path, `IsADirectoryError` when a
    directory does, `FileNotFoundError` otherwise. -/
def fsGetObject (fs : FS) (name : String) : Except PyError Bytes :=
  match validateName name with
  | .error e => .error e
  | .ok n =>
    let p := purePathParts n
    match alookup fs p with
    | some b => .ok b
    | none => if isDirIn fs p then .error .isADirectory else .error .fileNotFound

/-- `FSBucket.exists(name)`: validate, then `_obj_path.exists() and
    _obj_path.is_file()` — true exactly when a regular file sits at the
    resolved path (a directory satisfies `exists()` but not `is_file()`). -/
def fsExists (fs : FS) (name : String) : Except PyError Bool :=
  match validateName name with
  | .error e => .error e
  | .ok n => .ok (alookup fs (purePathParts n)).isSome

/-- `bucketbase/errors.py` `DeleteError`: carries an error code, a message and
    the offending object name. Its `__init__(self, code, message, name)` takes
    exactly these three parameters. -/
structure DeleteError where
  code : Nat
  message : String
  name : String
deriving DecidableEq, Repr

/-- The call `DeleteError(code=404, message=e, name=str(obj), version_id=None)`
    made by `FSBucket.remove_objects`: `DeleteError.__init__` does not accept a
    `version_id` keyword, so Python raises `TypeError` and the constructor call
    never returns a `DeleteError` value. -/
def callDeleteErrorCtorWithVersionId : Except PyError DeleteError :=
  .error .typeError

/-- `Path.unlink(missing_ok=True)` on the path `p`: removes the regular file
    at `p`; a completely absent path is not an error (`missing_ok` suppresses
    `FileNotFoundError`), but a directory at `p` raises `IsADirectoryError`
    and a regular file at an ancestor of `p` raises `NotADirectoryError`. -/
def fsUnlink (fs : FS) (p : RelPath) : FS × Option PyError :=
  if ancestorIsFile fs p then (fs, some .notADirectory)
  else if (alookup fs p).isSome then (aerase fs p, none)
  else if isDirIn fs p then (fs, some .isADirectory)
  else (fs, none)

/-- The loop of `FSBucket.remove_objects`: validate each name, unlink its
    path; when the unlink raises, the `except` block builds a `DeleteError`
    to append — but that constructor call itself raises `TypeError` (see
    `callDeleteErrorCtorWithVersionId`), which propagates; otherwise remove
    now-empty ancestor directories (a no-op on the observable store: a
    directory exists exactly when a file lies below it) and continue. -/
def fsRemoveObjectsGo (fs : FS) :
    List String → List DeleteError → FS × Except PyError (List DeleteError)
  | [], acc => (fs, .ok acc)
  | n :: rest, acc =>
    match validateName n with
    | .error e => (fs, .error e)
    | .ok nm =>
      let r := fsUnlink fs (purePathParts nm)
      match r.2 with
      | none => fsRemoveObjectsGo r.1 rest acc
      | some _ =>
        match callDeleteErrorCtorWithVersionId with
        | .ok de => fsRemoveObjectsGo r.1 rest (acc ++ [de])
        | .error e => (r.1, .error e)

/-- `FSBucket.remove_objects(names)`. -/
def fsRemoveObjects (fs : FS) (names : List String) :
    FS × Except PyError (List DeleteError) :=
  fsRemoveObjectsGo fs names []

/-- `MemoryBucket.put_object(name, content)`: validate, then store the bytes
    under the name (byte content passes through `_encode_content` unchanged). -/
def memPutObject (m : Store) (name : String) (content : Bytes) :
    Store × Option PyError :=
  match validateName name with
  | .error e => (m, some e)
  | .ok n => (ainsert m n content, none)

/-- `MemoryBucket.get_object(name)` — and the abstract `IBucket.get_object`
    contract of a store collaborator: validate, return the stored bytes, raise
    `FileNotFoundError` when the name is absent. -/
def storeGetObject (s : Store) (name : String) : Except PyError Bytes :=
  match validateName name with
  | .error e => .error e
  | .ok n =>
    match alookup s n with
    | some c => .ok c
    | none => .error .fileNotFound

/-- `MemoryBucket.exists(name)`. -/
def memExists (m : Store) (name : String) : Except PyError Bool :=
  match validateName name with
  | .error e => .error e
  | .ok n => .ok (alookup m n).isSome

/-- The loop of `MemoryBucket.remove_objects`: validate each name and pop it
    from the dict when present; the `delete_errors` list is never appended to. -/
def memRemoveObjectsGo (m : Store) : List String → Store × Except PyError (List DeleteError)
  | [] => (m, .ok [])
  | n :: rest =>
    match validateName n with
    | .error e => (m, .error e)
    | .ok nm => memRemoveObjectsGo (aerase m nm) rest

/-- `MemoryBucket.remove_objects(names)`. -/
def memRemoveObjects (m : Store) (names : List String) :
    Store × Except PyError (List DeleteError) :=
  memRemoveObjectsGo m names

/-- The lock operations performed by a synchronized-bucket call. -/
inductive LockEvent
  | lock (name : String)
  | unlock (name : String)
deriving DecidableEq, Repr

/-- `AbstractAppendOnlySynchronizedBucket.get_object(name)` over a base-bucket
    collaborator: `store` is the base bucket's contents at the `self.exists`
    check and `store'` its contents at the later read (a concurrent writer may
    commit between the two). If the exists check succeeds, the content is read
    with no locking; otherwise the per-key lock is acquired, the read is
    attempted, the lock is released in the `finally` block (also when the read
    raises `FileNotFoundError`), and the read's outcome propagates. -/
def syncGetObject (store store' : Store) (name : String) :
    Except PyError Bytes × List LockEvent :=
  match validateName name with
  | .error e => (.error e, [])
  | .ok n =>
    match alookup store n with
    | some _ =>
      (match alookup store' n with
       | some c => .ok c
       | none => .error .fileNotFound, [])
    | none =>
      (match alookup store' n with
       | some c => .ok c
       | none => .error .fileNotFound,
       [.lock n, .unlock n])

/-- The state of a `CachedImmutableBucket`: the contents of its cache bucket
    and of its main bucket. -/
structure CachedBucket where
  cache : Store
  main : Store
deriving DecidableEq, Repr

/-- `CachedImmutableBucket.get_object(name)`: try the cache; on
    `FileNotFoundError` fetch from main, write the content into the cache,
    and return it. Any other exception (e.g. `ValueError`) propagates. -/
def cachedGetObject (b : CachedBucket) (name : String) :
    CachedBucket × Except PyError Bytes :=
  match storeGetObject b.cache name with
  | .ok c => (b, .ok c)
  | .error .fileNotFound =>
    match storeGetObject b.main name with
    | .ok c =>
      match memPutObject b.cache name c with
      | (cache', none) => ({ b with cache := cache' }, .ok c)
      | (cache', some e) => ({ b with cache := cache' }, .error e)
    | .error e => (b, .error e)
  | .error e => (b, .error e)

/-- `CachedImmutableBucket.exists(name)`: the short-circuit disjunction
    `self._cache.exists(name) or self._main.exists(name)`. -/
def cachedExists (b : CachedBucket) (name : String) : Except PyError Bool :=
  match validateName name with
  | .error e => .error e
  | .ok n => .ok ((alookup b.cache n).isSome || (alookup b.main n).isSome)

/-- `CachedImmutableBucket.put_object`: unconditionally raises
    `io.UnsupportedOperation`, touching nothing. -/
def cachedPutObject (b : CachedBucket) (_name : String) (_content : Bytes) :
    CachedBucket × Except PyError Unit :=
  (b, .error .unsupportedOperation)

/-- `CachedImmutableBucket.put_object_stream`: unconditionally raises
    `io.UnsupportedOperation`, touching nothing. -/
def cachedPutObjectStream (b : CachedBucket) (_name : String) (_stream : ByteStream) :
    CachedBucket × Except PyError Unit :=
  (b, .error .unsupportedOperation)

/-- `CachedImmutableBucket.remove_objects`: unconditionally raises
    `io.UnsupportedOperation`, touching nothing. -/
def cachedRemoveObjects (b : CachedBucket) (_names : List String) :
    CachedBucket × Except PyError (List DeleteError) :=
  (b, .error .unsupportedOperation)

/-- The successive filesystem states a concurrent reader can observe while
    the copy loop of `put_object_stream` runs: the state before each chunk is
    written, and the state after the last one. -/
def copyChunksStates (fs : FS) (p : RelPath) : List Bytes → List FS
  | [] => [fs]
  | c :: cs => fs :: copyChunksStates (ainsert fs p (((alookup fs p).getD []) ++ c)) p cs

/-- The successive filesystem states a concurrent reader can observe during
    `FSBucket.put_object_stream`: the initial state, the state right after
    `open("wb")` truncates the destination, and the state after each chunk
    write. (When validation or directory creation fails nothing is written.) -/
def fsPutStates (fs : FS) (name : String) (stream : ByteStream) : List FS :=
  match validateName name with
  | .error _ => [fs]
  | .ok n =>
    let p := purePathParts n
    if ancestorIsFile fs p then [fs]
    else if isDirIn fs p then [fs]
    else fs :: copyChunksStates (ainsert fs p []) p stream.chunks

/-- Reassemble a segment view into the original character list: the inverse
    of `splitSegs`. -/
def joinSegs : List Seg → List Char
  | [] => []
  | [s] => s
  | s :: t :: rest => s ++ '/' :: joinSegs (t :: rest)

/-- OS-level resolution of a relative path applied under the store root, where
    a `..` segment pops one directory level: `true` when resolution ascends
    above the root at some point. (Single-dot segments are already collapsed
    by `purePathParts`.) -/
def escapesDepth : Nat → RelPath → Bool
  | _, [] => false
  | d, seg :: rest =>
    if seg = ['.', '.'] then
      match d with
      | 0 => true
      | d' + 1 => escapesDepth d' rest
    else escapesDepth (d + 1) rest

/-- The resolved location of the relative path escapes the store root. -/
def escapesRoot (p : RelPath) : Bool :=
  escapesDepth 0 p

/-- No segment of the name is `.` or `..`. -/
def noDotSegs (s : String) : Bool :=
  (splitSegs s.data).all fun seg => decide (seg ≠ ['.']) && decide (seg ≠ ['.', '.'])

theorem validateName_ok {s : String} (h : matchesObjName s = true) :
    validateName s = .ok s := by
  simp [validateName, h]

theorem alookup_ainsert_self {κ β : Type} [DecidableEq κ] (l : List (κ × β))
    (k : κ) (v : β) : alookup (ainsert l k v) k = some v := by
  simp [ainsert, alookup]

theorem alookup_aerase_ne {κ β : Type} [DecidableEq κ] (l : List (κ × β))
    {k k' : κ} (h : k' ≠ k) : alookup (aerase l k) k' = alookup l k' := by
  induction l with
  | nil => rfl
  | cons q rest ih =>
    simp only [aerase]
    by_cases hq : q.1 = k
    · rw [if_pos hq, ih]
      have hq' : q.1 ≠ k' := by rw [hq]; exact Ne.symm h
      simp [alookup, hq']
    · rw [if_neg hq]
      by_cases hk' : q.1 = k'
      · simp [alookup, hk']
      · simp [alookup, hk', ih]

theorem alookup_ainsert_ne {κ β : Type} [DecidableEq κ] (l : List (κ × β))
    {k k' : κ} (v : β) (h : k' ≠ k) :
    alookup (ainsert l k v) k' = alookup l k' := by
  have : k ≠ k' := fun e => h e.symm
  simp [ainsert, alookup, this, alookup_aerase_ne l h]

theorem alookup_mem {κ β : Type} [DecidableEq κ] {l : List (κ × β)} {k : κ}
    {v : β} (h : alookup l k = some v) : (k, v) ∈ l := by
  induction l with
  | nil => simp [alookup] at h
  | cons q rest ih =>
    by_cases hq : q.1 = k
    · simp only [alookup, if_pos hq, Option.some.injEq] at h
      have hqv : (k, v) = q := by rw [← hq, ← h]
      exact List.mem_cons.mpr (Or.inl hqv)
    · simp only [alookup, if_neg hq] at h
      exact List.mem_cons_of_mem _ (ih h)

theorem aerase_of_none {κ β : Type} [DecidableEq κ] {l : List (κ × β)} {k : κ}
    (h : alookup l k = none) : aerase l k = l := by
  induction l with
  | nil => rfl
  | cons q rest ih =>
    by_cases hq : q.1 = k
    · simp [alookup, hq] at h
    · simp [alookup, hq] at h
      simp [aerase, hq, ih h]

theorem copyChunks_spec (p : RelPath) (cs : List Bytes) (fl : Bool) :
    ∀ (fs : FS) (acc : Bytes), alookup fs p = some acc →
      (copyChunks fs p cs fl).2 = (if fl then some PyError.osError else none) ∧
      alookup (copyChunks fs p cs fl).1 p = some (acc ++ cs.flatten) ∧
      ∀ q, q ≠ p → alookup (copyChunks fs p cs fl).1 q = alookup fs q := by
  induction cs with
  | nil =>
    intro fs acc h
    cases fl <;> simp [copyChunks, h]
  | cons c cs ih =>
    intro fs acc h
    have h' : alookup (ainsert fs p (((alookup fs p).getD []) ++ c)) p
        = some (acc ++ c) := by
      rw [h]
      exact alookup_ainsert_self ..
    obtain ⟨h1, h2, h3⟩ := ih (ainsert fs p (((alookup fs p).getD []) ++ c)) (acc ++ c) h'
    refine ⟨h1, ?_, ?_⟩
    · rw [show copyChunks fs p (c :: cs) fl
          = copyChunks (ainsert fs p (((alookup fs p).getD []) ++ c)) p cs fl from rfl]
      rw [h2]
      simp
    · intro q hq
      rw [show copyChunks fs p (c :: cs) fl
          = copyChunks (ainsert fs p (((alookup fs p).getD []) ++ c)) p cs fl from rfl]
      rw [h3 q hq]
      exact alookup_ainsert_ne _ _ hq

theorem flatten_chunksOfFuel (n : Nat) (hn : n ≠ 0) :
    ∀ (fuel : Nat) (b : Bytes), b.length ≤ fuel →
      (chunksOfFuel n fuel b).flatten = b := by
  intro fuel
  induction fuel with
  | zero =>
    intro b hb
    have : b = [] := List.eq_nil_of_length_eq_zero (Nat.le_zero.mp hb)
    subst this
    rfl
  | succ fuel ih =>
    intro b hb
    cases b with
    | nil => rfl
    | cons x xs =>
      have hlen : ((x :: xs).drop n).length ≤ fuel := by
        rw [List.length_drop]
        have h1 : (x :: xs).length - n ≤ (x :: xs).length - 1 :=
          Nat.sub_le_sub_left (Nat.pos_of_ne_zero hn) _
        exact le_trans h1 (by simpa using Nat.sub_le_sub_right hb 1)
      simp only [chunksOfFuel, List.flatten_cons]
      rw [ih _ hlen]
      exact List.take_append_drop n (x :: xs)

theorem flatten_chunksOf (n : Nat) (hn : n ≠ 0) (b : Bytes) :
    (chunksOf n b).flatten = b :=
  flatten_chunksOfFuel n hn b.length b le_rfl

theorem copyChunksStates_lookup (p : RelPath) (cs : List Bytes) :
    ∀ (fs : FS) (acc : Bytes), alookup fs p = some acc →
      ∀ s ∈ copyChunksStates fs p cs,
        ∃ i, alookup s p = some (acc ++ (cs.take i).flatten) := by
  induction cs with
  | nil =>
    intro fs acc h s hs
    simp [copyChunksStates] at hs
    subst hs
    exact ⟨0, by simpa using h⟩
  | cons c cs ih =>
    intro fs acc h s hs
    simp only [copyChunksStates, List.mem_cons] at hs
    rcases hs with hs | hs
    · subst hs
      exact ⟨0, by simpa using h⟩
    · have h' : alookup (ainsert fs p (((alookup fs p).getD []) ++ c)) p
          = some (acc ++ c) := by
        rw [h]
        exact alookup_ainsert_self ..
      obtain ⟨i, hi⟩ := ih _ _ h' s hs
      refine ⟨i + 1, ?_⟩
      rw [hi]
      simp [List.take_cons, List.flatten]

theorem splitSegs_ne_nil (l : List Char) : splitSegs l ≠ [] := by
  cases l with
  | nil => simp [splitSegs]
  | cons c cs =>
    simp only [splitSegs]
    by_cases hc : c = '/'
    · simp [hc]
    · rw [if_neg hc]
      cases splitSegs cs <;> simp

theorem joinSegs_splitSegs (l : List Char) : joinSegs (splitSegs l) = l := by
  induction l with
  | nil => rfl
  | cons c cs ih =>
    simp only [splitSegs]
    by_cases hc : c = '/'
    · rw [if_pos hc]
      obtain ⟨t, rest, ht⟩ : ∃ t rest, splitSegs cs = t :: rest := by
        cases hsp : splitSegs cs with
        | nil => exact absurd hsp (splitSegs_ne_nil cs)
        | cons t rest => exact ⟨t, rest, rfl⟩
      rw [ht]
      rw [ht] at ih
      simp only [joinSegs]
      rw [ih, hc]
      rfl
    · rw [if_neg hc]
      cases hsp : splitSegs cs with
      | nil => exact absurd hsp (splitSegs_ne_nil cs)
      | cons s rest =>
        rw [hsp] at ih
        cases rest with
        | nil =>
          simp only [joinSegs] at ih ⊢
          rw [ih]
        | cons t rest' =>
          simp only [joinSegs] at ih ⊢
          rw [List.cons_append, ih]

theorem escapesDepth_of_no_dotdot {p : RelPath}
    (h : ∀ seg ∈ p, seg ≠ ['.', '.']) : ∀ d, escapesDepth d p = false := by
  induction p with
  | nil => intro d; rfl
  | cons seg rest ih =>
    intro d
    have hseg : seg ≠ ['.', '.'] := h seg (List.mem_cons_self ..)
    have hrest : ∀ s ∈ rest, s ≠ ['.', '.'] := fun s hs => h s (List.mem_cons_of_mem _ hs)
    simp only [escapesDepth, if_neg hseg]
    exact ih hrest (d + 1)

theorem purePathParts_of_valid_noDot {s : String}
    (hv : matchesObjName s = true) (hd : noDotSegs s = true) :
    purePathParts s = splitSegs s.data := by
  unfold purePathParts
  apply List.filter_eq_self.mpr
  intro seg hseg
  have h1 := (List.all_eq_true.mp hv) seg hseg
  have h2 := (List.all_eq_true.mp hd) seg hseg
  simp only [Bool.and_eq_true, decide_eq_true_eq] at h1 h2
  simp [h1.1, h2.1]

theorem fsGetObject_of_lookup {fs : FS} {name : String} {v : Bytes}
    (hv : matchesObjName name = true)
    (h : alookup fs (purePathParts name) = some v) :
    fsGetObject fs name = .ok v := by
  simp [fsGetObject, validateName_ok hv, h]

theorem fsPutObjectStream_eq {fs : FS} {name : String} (stream : ByteStream)
    (hv : matchesObjName name = true)
    (hanc : ancestorIsFile fs (purePathParts name) = false)
    (hdir : isDirIn fs (purePathParts name) = false) :
    fsPutObjectStream fs name stream =
      copyChunks (ainsert fs (purePathParts name) []) (purePathParts name)
        stream.chunks stream.fails := by
  simp [fsPutObjectStream, validateName_ok hv, hanc, hdir]

theorem fsPutObject_success_spec {fs : FS} {K : String} {C : Bytes}
    (hv : matchesObjName K = true)
    (hput : (fsPutObject fs K C).2 = none) :
    ancestorIsFile fs (purePathParts K) = false ∧
    isDirIn fs (purePathParts K) = false ∧
    alookup (fsPutObject fs K C).1 (purePathParts K) = some C ∧
    ∀ q, q ≠ purePathParts K → alookup (fsPutObject fs K C).1 q = alookup fs q := by
  by_cases hanc : ancestorIsFile fs (purePathParts K) = true
  · exfalso
    rw [show fsPutObject fs K C = (fs, some .fileExists) by
      simp [fsPutObject, fsPutObjectStream, validateName_ok hv, hanc]] at hput
    exact Option.some_ne_none _ hput
  · rw [Bool.not_eq_true] at hanc
    by_cases hdir : isDirIn fs (purePathParts K) = true
    · exfalso
      rw [show fsPutObject fs K C = (fs, some .isADirectory) by
        simp [fsPutObject, fsPutObjectStream, validateName_ok hv, hanc, hdir]] at hput
      exact Option.some_ne_none _ hput
    · rw [Bool.not_eq_true] at hdir
      refine ⟨hanc, hdir, ?_, ?_⟩
      all_goals
        rw [show fsPutObject fs K C
            = copyChunks (ainsert fs (purePathParts K) []) (purePathParts K)
                (chunksOf BUFFER_SIZE C) false from
          fsPutObjectStream_eq _ hv hanc hdir]
      · obtain ⟨-, h2, -⟩ := copyChunks_spec (purePathParts K) (chunksOf BUFFER_SIZE C)
          false _ [] (alookup_ainsert_self ..)
        rw [h2, flatten_chunksOf BUFFER_SIZE (by decide) C]
        rfl
      · intro q hq
        obtain ⟨-, -, h3⟩ := copyChunks_spec (purePathParts K) (chunksOf BUFFER_SIZE C)
          false _ [] (alookup_ainsert_self ..)
        rw [h3 q hq]
        exact alookup_ainsert_ne _ _ hq

/-- C1, corrected — `FSBucket.put_object_stream` uses no scratch file: it
    writes directly to the final destination path, truncating it on open and
    appending the stream's chunks in place; on a mid-copy stream error the
    error propagates with the destination left holding the partially-copied
    content, on success the destination holds exactly the streamed bytes, and
    no path other than the destination is ever modified. -/
theorem put_stream_writes_destination_in_place
    (fs : FS) (name : String) (stream : ByteStream)
    (hv : matchesObjName name = true)
    (hanc : ancestorIsFile fs (purePathParts name) = false)
    (hdir : isDirIn fs (purePathParts name) = false)
    (q : RelPath) (hq : q ≠ purePathParts name) :
    (fsPutObjectStream fs name stream).2
      = (if stream.fails then some PyError.osError else none) ∧
    alookup (fsPutObjectStream fs name stream).1 (purePathParts name)
      = some stream.chunks.flatten ∧
    alookup (fsPutObjectStream fs name stream).1 q = alookup fs q := by
  rw [fsPutObjectStream_eq stream hv hanc hdir]
  obtain ⟨h1, h2, h3⟩ := copyChunks_spec (purePathParts name) stream.chunks
    stream.fails _ [] (alookup_ainsert_self ..)
  refine ⟨h1, ?_, ?_⟩
  · rw [h2]
    rfl
  · rw [h3 q hq]
    exact alookup_ainsert_ne _ _ hq

/-- C1, counterexample to the claim as stated: a put whose stream raises
    mid-copy does modify the final destination path — the prior content `[7]`
    of object `a` is replaced by the partially-copied `[1]`, with no scratch
    file involved and the error propagated. -/
theorem put_stream_error_touches_destination :
    (fsPutObjectStream (fsPutObject ([] : FS) "a" [7]).1 "a" ⟨[[1]], true⟩).2
      = some PyError.osError ∧
    alookup (fsPutObjectStream (fsPutObject ([] : FS) "a" [7]).1 "a"
      ⟨[[1]], true⟩).1 (purePathParts "a") = some [1] ∧
    alookup (fsPutObject ([] : FS) "a" [7]).1 (purePathParts "a") = some [7] := by
  decide

theorem put_stream_writes_destination_in_place_witness :
    (fsPutObjectStream ([] : FS) "a" ⟨[[1]], true⟩).2 = some PyError.osError ∧
    alookup (fsPutObjectStream ([] : FS) "a" ⟨[[1]], true⟩).1 (purePathParts "a")
      = some [1] ∧
    alookup (fsPutObjectStream ([] : FS) "a" ⟨[[1]], true⟩).1 [['z']]
      = alookup ([] : FS) [['z']] := by
  have h := put_stream_writes_destination_in_place ([] : FS) "a" ⟨[[1]], true⟩
    (by decide) (by decide) (by decide) [['z']] (by decide)
  exact ⟨by simpa using h.1, by simpa using h.2.1, h.2.2⟩

/-- C2, corrected — a reader running concurrently with an in-flight
    `put_object_stream` observes, at every intermediate state, either exactly
    what it would have observed before the put started (`NotFound` or the
    prior value) or the concatenation of the first `i` chunks copied so far —
    which, since the write happens in place, may be a truncated prefix of the
    new value (including the empty prefix right after the destination is
    truncated). -/
theorem put_stream_reader_sees_prior_or_chunk_prefix
    (fs : FS) (name : String) (stream : ByteStream)
    (hv : matchesObjName name = true)
    (hanc : ancestorIsFile fs (purePathParts name) = false)
    (hdir : isDirIn fs (purePathParts name) = false)
    (s : FS) (hs : s ∈ fsPutStates fs name stream) :
    fsGetObject s name = fsGetObject fs name ∨
    ∃ i, fsGetObject s name = .ok ((stream.chunks.take i).flatten) := by
  rw [show fsPutStates fs name stream
      = fs :: copyChunksStates (ainsert fs (purePathParts name) [])
          (purePathParts name) stream.chunks by
    simp [fsPutStates, validateName_ok hv, hanc, hdir]] at hs
  rcases List.mem_cons.mp hs with hs | hs
  · subst hs
    exact Or.inl rfl
  · obtain ⟨i, hi⟩ := copyChunksStates_lookup (purePathParts name) stream.chunks
      _ [] (alookup_ainsert_self ..) s hs
    refine Or.inr ⟨i, ?_⟩
    rw [fsGetObject_of_lookup hv hi]
    rfl

/-- C2, counterexample to the claim as stated: with object `a` holding `[7]`,
    a put of the two-chunk content `[1], [2]` exposes an intermediate state
    in which a reader of `a` gets `.ok [1]` — neither `NotFound`, nor the
    complete prior value `[7]`, nor the complete new value `[1, 2]`. -/
theorem put_reader_can_see_partial_value :
    ((fsPutStates (fsPutObject ([] : FS) "a" [7]).1 "a" ⟨[[1], [2]], false⟩).any
      fun s => decide (fsGetObject s "a" = .ok [1])) = true ∧
    fsGetObject (fsPutObject ([] : FS) "a" [7]).1 "a" = .ok [7] ∧
    (.ok [1] : Except PyError Bytes) ≠ .ok [7] ∧
    (.ok [1] : Except PyError Bytes) ≠ .ok [1, 2] ∧
    (.ok [1] : Except PyError Bytes) ≠ .error .fileNotFound := by
  decide

theorem put_stream_reader_sees_prior_or_chunk_prefix_witness :
    fsGetObject ([([['a']], [1])] : FS) "a"
        = fsGetObject (fsPutObject ([] : FS) "a" [7]).1 "a" ∨
    ∃ i, fsGetObject ([([['a']], [1])] : FS) "a"
        = .ok ((([[1], [2]] : List Bytes).take i).flatten) :=
  put_stream_reader_sees_prior_or_chunk_prefix (fsPutObject ([] : FS) "a" [7]).1
    "a" ⟨[[1], [2]], false⟩ (by decide) (by decide) (by decide)
    [([['a']], [1])] (by decide)

/-- C3, confirmed — `AbstractAppendOnlySynchronizedBucket.get_object` follows
    exactly the claimed algorithm: when the base bucket reports the name
    exists, the content is read and returned with no lock operation at all;
    otherwise the per-key lock is acquired, the read attempted and the lock
    released even when the read raises, with `FileNotFoundError` propagated
    when the object is still absent at the locked read (`store` and `store'`
    are the base bucket's contents at the exists check and at the read; the
    hypothesis is the append-only contract: entries are never removed). -/
theorem sync_get_object_spec (store store' : Store) (name : String)
    (hv : matchesObjName name = true)
    (hmono : ∀ k v, alookup store k = some v → alookup store' k = some v) :
    (∀ c, alookup store name = some c →
      syncGetObject store store' name = (.ok c, [])) ∧
    (alookup store name = none →
      (syncGetObject store store' name).2 = [.lock name, .unlock name] ∧
      (alookup store' name = none →
        (syncGetObject store store' name).1 = .error .fileNotFound) ∧
      ∀ c, alookup store' name = some c →
        (syncGetObject store store' name).1 = .ok c) := by
  constructor
  · intro c hc
    simp [syncGetObject, validateName_ok hv, hc, hmono name c hc]
  · intro hnone
    cases hlook : alookup store' name with
    | none => simp [syncGetObject, validateName_ok hv, hnone, hlook]
    | some c => simp [syncGetObject, validateName_ok hv, hnone, hlook]

theorem sync_get_object_spec_witness :
    syncGetObject [("a", [2])] [("a", [2])] "a" = (.ok [2], []) ∧
    (syncGetObject ([] : Store) ([] : Store) "a").2 = [.lock "a", .unlock "a"] ∧
    (syncGetObject ([] : Store) ([] : Store) "a").1 = .error .fileNotFound := by
  refine ⟨?_, ?_, ?_⟩
  · exact (sync_get_object_spec [("a", [2])] [("a", [2])] "a" (by decide)
      fun _ _ h => h).1 [2] (by decide)
  · exact ((sync_get_object_spec ([] : Store) ([] : Store) "a" (by decide)
      fun _ _ h => h).2 (by decide)).1
  · exact ((sync_get_object_spec ([] : Store) ([] : Store) "a" (by decide)
      fun _ _ h => h).2 (by decide)).2.1 (by decide)

/-- C4, counterexample to the claim as stated: the validator accepts `.` and
    `..` as segments, so the key-to-path mapping is not injective — the
    accepted keys `a/./b` and `a/b` resolve to the same relative path (and a
    put under one is read back under the other) — and an accepted key such as
    `../x` resolves outside the store root. -/
theorem name_to_path_not_injective :
    matchesObjName "a/./b" = true ∧ matchesObjName "a/b" = true ∧
    ("a/./b" : String) ≠ "a/b" ∧
    purePathParts "a/./b" = purePathParts "a/b" ∧
    fsGetObject (fsPutObject ([] : FS) "a/./b" [5]).1 "a/b" = .ok [5] ∧
    matchesObjName "../x" = true ∧
    escapesRoot (purePathParts "../x") = true := by
  decide

/-- C4, corrected — for accepted keys none of whose segments is `.` or `..`,
    the key-to-path mapping is injective and the resolved path never escapes
    the store root. -/
theorem name_to_path_injective_without_dot_segs (n₁ n₂ : String)
    (h₁ : matchesObjName n₁ = true) (h₂ : matchesObjName n₂ = true)
    (d₁ : noDotSegs n₁ = true) (d₂ : noDotSegs n₂ = true) :
    escapesRoot (purePathParts n₁) = false ∧
    (purePathParts n₁ = purePathParts n₂ → n₁ = n₂) := by
  constructor
  · rw [escapesRoot, purePathParts_of_valid_noDot h₁ d₁]
    apply escapesDepth_of_no_dotdot
    intro seg hseg
    have h := (List.all_eq_true.mp d₁) seg hseg
    simp only [Bool.and_eq_true, decide_eq_true_eq] at h
    exact h.2
  · intro hpp
    rw [purePathParts_of_valid_noDot h₁ d₁, purePathParts_of_valid_noDot h₂ d₂] at hpp
    have hdata : n₁.data = n₂.data := by
      rw [← joinSegs_splitSegs n₁.data, ← joinSegs_splitSegs n₂.data, hpp]
    cases n₁
    cases n₂
    exact congrArg String.mk hdata

theorem name_to_path_injective_without_dot_segs_witness :
    escapesRoot (purePathParts "a/b.txt") = false ∧
    (purePathParts "a/b.txt" = purePathParts "c" → "a/b.txt" = "c") :=
  name_to_path_injective_without_dot_segs "a/b.txt" "c"
    (by decide) (by decide) (by decide) (by decide)

/-- C5, confirmed — with the main store holding `K ↦ C` and the cache empty,
    `CachedImmutableBucket.get_object(K)` returns `C` and populates the cache
    (so `cache.exists(K)` is true afterwards); after `K` is removed from the
    main store, `get_object(K)` still returns `C`, served from the cache with
    no state change. -/
theorem cached_get_populates_cache (K : String) (C : Bytes)
    (h : matchesObjName K = true) :
    cachedGetObject ⟨[], [(K, C)]⟩ K = (⟨[(K, C)], [(K, C)]⟩, .ok C) ∧
    memExists [(K, C)] K = .ok true ∧
    (memRemoveObjects [(K, C)] [K]).1 = [] ∧
    cachedGetObject ⟨[(K, C)], []⟩ K = (⟨[(K, C)], []⟩, .ok C) := by
  refine ⟨?_, ?_, ?_, ?_⟩
  · simp [cachedGetObject, storeGetObject, memPutObject, validateName_ok h,
      alookup, ainsert, aerase]
  · simp [memExists, validateName_ok h, alookup]
  · simp [memRemoveObjects, memRemoveObjectsGo, validateName_ok h, aerase]
  · simp [cachedGetObject, storeGetObject, validateName_ok h, alookup]

theorem cached_get_populates_cache_witness :
    cachedGetObject ⟨[], [("a", [1])]⟩ "a" = (⟨[("a", [1])], [("a", [1])]⟩, .ok [1]) ∧
    memExists [("a", [1])] "a" = .ok true ∧
    (memRemoveObjects [("a", [1])] ["a"]).1 = [] ∧
    cachedGetObject ⟨[("a", [1])], []⟩ "a" = (⟨[("a", [1])], []⟩, .ok [1]) :=
  cached_get_populates_cache "a" [1] (by decide)

/-- C6, confirmed — `CachedImmutableBucket.put_object`, `put_object_stream`
    and `remove_objects` raise `io.UnsupportedOperation` for every argument
    and every store state, leaving the state unchanged. -/
theorem cached_mutators_always_unsupported (b : CachedBucket) (name : String)
    (content : Bytes) (stream : ByteStream) (names : List String) :
    cachedPutObject b name content = (b, .error .unsupportedOperation) ∧
    cachedPutObjectStream b name stream = (b, .error .unsupportedOperation) ∧
    cachedRemoveObjects b names = (b, .error .unsupportedOperation) :=
  ⟨rfl, rfl, rfl⟩

/-- C7, confirmed — for every valid key and every byte content (the empty
    content included), a completed `put_object` followed by `get_object`
    returns exactly the stored bytes, on the memory store and on the
    filesystem store. -/
theorem put_get_roundtrip (K : String) (C : Bytes) (m : Store) (fs : FS)
    (hv : matchesObjName K = true)
    (hput : (fsPutObject fs K C).2 = none) :
    (memPutObject m K C).2 = none ∧
    storeGetObject (memPutObject m K C).1 K = .ok C ∧
    fsGetObject (fsPutObject fs K C).1 K = .ok C := by
  refine ⟨?_, ?_, ?_⟩
  · simp [memPutObject, validateName_ok hv]
  · simp [memPutObject, storeGetObject, validateName_ok hv, alookup_ainsert_self]
  · obtain ⟨-, -, hlook, -⟩ := fsPutObject_success_spec hv hput
    exact fsGetObject_of_lookup hv hlook

theorem put_get_roundtrip_witness :
    (memPutObject ([] : Store) "a" []).2 = none ∧
    storeGetObject (memPutObject ([] : Store) "a" []).1 "a" = .ok [] ∧
    fsGetObject (fsPutObject ([] : FS) "a" []).1 "a" = .ok [] :=
  put_get_roundtrip "a" [] ([] : Store) ([] : FS) (by decide) (by decide)

/-- C8, counterexample to the claim as stated: `a` does not exist in the
    store (it is only the parent directory of the stored object `a/b`), yet
    `FSBucket.remove_objects(["a"])` raises instead of returning no error —
    `unlink` raises `IsADirectoryError` and the `except` block's
    `DeleteError(..., version_id=None)` call raises `TypeError`. -/
theorem remove_missing_key_can_raise :
    matchesObjName "a" = true ∧
    fsExists (fsPutObject ([] : FS) "a/b" [1]).1 "a" = .ok false ∧
    (fsRemoveObjects (fsPutObject ([] : FS) "a/b" [1]).1 ["a"]).2
      = .error .typeError := by
  decide

/-- C8, corrected — for every valid key whose path collides with no existing
    filesystem entry at all (no file or directory at the path, no file at an
    ancestor), `remove_objects([K])` returns an empty error list, raises
    nothing and leaves the store unchanged; the memory store needs only the
    key's absence. -/
theorem remove_missing_path_is_noop (K : String) (fs : FS) (m : Store)
    (hv : matchesObjName K = true)
    (hfile : alookup fs (purePathParts K) = none)
    (hdir : isDirIn fs (purePathParts K) = false)
    (hanc : ancestorIsFile fs (purePathParts K) = false)
    (hm : alookup m K = none) :
    fsRemoveObjects fs [K] = (fs, .ok []) ∧
    memRemoveObjects m [K] = (m, .ok []) := by
  constructor
  · simp [fsRemoveObjects, fsRemoveObjectsGo, validateName_ok hv, fsUnlink,
      hanc, hfile, hdir]
  · simp [memRemoveObjects, memRemoveObjectsGo, validateName_ok hv,
      aerase_of_none hm]

theorem remove_missing_path_is_noop_witness :
    fsRemoveObjects ([] : FS) ["a"] = ([], .ok []) ∧
    memRemoveObjects ([] : Store) ["a"] = ([], .ok []) :=
  remove_missing_path_is_noop "a" ([] : FS) ([] : Store)
    (by decide) (by decide) (by decide) (by decide) (by decide)

/-- C9, code bug — when unlinking a key's path raises (here:
    `IsADirectoryError`, because `a` is the parent directory of the stored
    object `a/b`), `FSBucket.remove_objects` is supposed to append a
    `DeleteError` and continue, but the call
    `DeleteError(code=404, message=e, name=str(obj), version_id=None)` passes
    a `version_id` keyword that `DeleteError.__init__(self, code, message,
    name)` does not accept, so a `TypeError` escapes instead and the
    remaining keys (here `c`) are never processed. -/
theorem remove_objects_delete_error_ctor_raises :
    (fsUnlink (fsPutObject ([] : FS) "a/b" [1]).1 (purePathParts "a")).2
      = some PyError.isADirectory ∧
    callDeleteErrorCtorWithVersionId = .error .typeError ∧
    (fsRemoveObjects (fsPutObject ([] : FS) "a/b" [1]).1 ["a", "c"]).2
      = .error .typeError := by
  decide

/-- C10, confirmed — `FSBucket.exists` is true only for a regular file: after
    a successful put of a deeper object `n₂`, any accepted name `n₁` whose
    path is a strict ancestor of `n₂`'s path (a directory on disk) reports
    `exists = false`. -/
theorem exists_false_for_directory_path (fs : FS) (n₁ n₂ : String) (C : Bytes)
    (h₁ : matchesObjName n₁ = true) (h₂ : matchesObjName n₂ = true)
    (hle : isPathLE (purePathParts n₁) (purePathParts n₂) = true)
    (hne : purePathParts n₁ ≠ purePathParts n₂)
    (hput : (fsPutObject fs n₂ C).2 = none) :
    fsExists (fsPutObject fs n₂ C).1 n₁ = .ok false ∧
    isDirIn (fsPutObject fs n₂ C).1 (purePathParts n₁) = true := by
  obtain ⟨hanc, -, hlook, hother⟩ := fsPutObject_success_spec h₂ hput
  constructor
  · have hnone : alookup fs (purePathParts n₁) = none := by
      cases hl : alookup fs (purePathParts n₁) with
      | none => rfl
      | some v =>
        exfalso
        have hmem := alookup_mem hl
        have : ancestorIsFile fs (purePathParts n₂) = true := by
          apply List.any_eq_true.mpr
          exact ⟨(purePathParts n₁, v), hmem, by simp [hle, hne]⟩
        rw [this] at hanc
        exact Bool.true_eq_false ▸ (hanc ▸ rfl)
    rw [fsExists, validateName_ok h₁]
    simp only
    rw [hother _ hne, hnone]
    rfl
  · have hne' : purePathParts n₂ ≠ purePathParts n₁ := fun e => hne e.symm
    apply List.any_eq_true.mpr
    exact ⟨(purePathParts n₂, C), alookup_mem hlook, by simp [hle, hne']⟩

theorem exists_false_for_directory_path_witness :
    fsExists (fsPutObject ([] : FS) "a/b" [0]).1 "a" = .ok false ∧
    isDirIn (fsPutObject ([] : FS) "a/b" [0]).1 (purePathParts "a") = true :=
  exists_false_for_directory_path ([] : FS) "a" "a/b" [0]
    (by decide) (by decide) (by decide) (by decide) (by decide)

end Bucketbase
